import Mathlib

/-!
Verification development for the `react-advanced-table` repository.

The repository's computational core is `src/utils/computed.js`:

* `computeFullName(firstName, lastName)` — template-literal concatenation;
* `computeDaysSinceRegistration(registeredDate)` — parses a `YYYY-MM-DD`
  string with `new Date`, resets both it and `new Date()` (now) to midnight
  via `setHours(0,0,0,0)`, and returns
  `Math.floor((today - registered) / 86400000)`;
* `enrichDataWithComputedFields(rawData)` — `rawData.map(row => ({...row,
  fullName: ..., dsr: ...}))`.

plus the column-reordering handler `handleDragEnd` of
`src/components/DataTable.jsx`, which calls `arrayMove` from
`@dnd-kit/sortable`.

Modelling conventions:

* Timestamps are `Int` milliseconds on a single (local) timeline; the
  ambient wall clock `new Date()` is passed explicitly as `nowMs`.
* `new Date("YYYY-MM-DD")` is modelled by a concrete parser for the
  ten-character `YYYY-MM-DD` layout followed by the proleptic-Gregorian
  civil-date-to-epoch-day map (`daysFromCivil`, the ECMAScript `MakeDay`
  mapping); an unparseable string yields `none`, standing for the
  JavaScript `Invalid Date` / `NaN` outcome.
* The result of `computeDaysSinceRegistration` is `Option Int`, `none`
  standing for `NaN`.
* JavaScript records are open objects; the record structure therefore
  carries the two computed fields as `Option`-valued slots (`none` =
  property absent) so that the spread-and-overwrite semantics of
  `{...row, fullName: ..., dsr: ...}` is expressible.
-/

/-- Milliseconds per day, the `1000 * 60 * 60 * 24` of the source. -/
def msPerDay : Int := 1000 * 60 * 60 * 24

/-- Template literal of `computeFullName`: the two inputs joined by a single
space, with no trimming or normalization. -/
def computeFullName (firstName lastName : String) : String :=
  firstName ++ " " ++ lastName

/-- Gregorian leap-year test (ECMAScript `DaysInYear` criterion). -/
def isLeapYear (y : Int) : Bool :=
  (y % 4 == 0 && y % 100 != 0) || (y % 400 == 0)

/-- Number of days of month `m` (1–12) in year `y`. -/
def daysInMonth (y m : Int) : Int :=
  if m == 2 then (if isLeapYear y then 29 else 28)
  else if m == 4 || m == 6 || m == 9 || m == 11 then 30
  else 31

/-- Day number of the civil date `y-m-d` counted from the epoch
1970-01-01 (day 0), i.e. the ECMAScript `MakeDay(y, m-1, d)` value: the
proleptic-Gregorian mapping used by `new Date("YYYY-MM-DD")`. -/
def daysFromCivil (y m d : Int) : Int :=
  let yAdj := if m ≤ 2 then y - 1 else y
  let era := Int.fdiv yAdj 400
  let yoe := yAdj - era * 400
  let mp := if 2 < m then m - 3 else m + 9
  let doy := Int.fdiv (153 * mp + 2) 5 + d - 1
  let doe := yoe * 365 + Int.fdiv yoe 4 - Int.fdiv yoe 100 + doy
  era * 146097 + doe - 719468

/-- Numeric value of a decimal digit character. -/
def digitVal (c : Char) : Int :=
  (c.toNat : Int) - 48

/-- Parser for the `YYYY-MM-DD` date-only layout accepted by
`new Date(registeredDate)` in the source: exactly ten characters, digits in
the year/month/day slots, dashes between them, and the month and day in
range (out-of-range components give `Invalid Date`, here `none`). -/
def parseYMD (s : String) : Option (Int × Int × Int) :=
  match s.toList with
  | [y1, y2, y3, y4, h1, m1, m2, h2, d1, d2] =>
    if y1.isDigit && y2.isDigit && y3.isDigit && y4.isDigit &&
        h1 == '-' && m1.isDigit && m2.isDigit && h2 == '-' &&
        d1.isDigit && d2.isDigit then
      let y := 1000 * digitVal y1 + 100 * digitVal y2 + 10 * digitVal y3 + digitVal y4
      let m := 10 * digitVal m1 + digitVal m2
      let d := 10 * digitVal d1 + digitVal d2
      if 1 ≤ m ∧ m ≤ 12 ∧ 1 ≤ d ∧ d ≤ daysInMonth y m then some (y, m, d)
      else none
    else none
  | _ => none

/-- Timestamp (ms) produced by `new Date(registeredDate)` for a valid
`YYYY-MM-DD` string: midnight of that civil day. -/
def parseDateMs (s : String) : Option Int :=
  (parseYMD s).map (fun ymd => msPerDay * daysFromCivil ymd.1 ymd.2.1 ymd.2.2)

/-- Effect of `setHours(0, 0, 0, 0)` on a timestamp: reset to midnight of
its day, i.e. floor to a multiple of `msPerDay`. -/
def setHoursZero (t : Int) : Int :=
  msPerDay * Int.fdiv t msPerDay

/-- Truthiness of the `registeredDate` argument (`!registeredDate`):
`none` models an absent (`undefined`/`null`) value, and the empty string is
the only falsy string. -/
def isFalsy : Option String → Bool
  | none => true
  | some s => s == ""

/-- Model of `computeDaysSinceRegistration`.  The wall clock read by
`new Date()` is the explicit `nowMs` argument.  A falsy input returns `0`;
otherwise the parsed date and now are reset to midnight and the difference
is floor-divided by `msPerDay`.  `none` models the `NaN` produced for an
unparseable date. -/
def computeDaysSinceRegistration (registeredDate : Option String) (nowMs : Int) :
    Option Int :=
  if isFalsy registeredDate then some 0
  else
    match registeredDate with
    | none => some 0
    | some s =>
      match parseDateMs s with
      | none => none
      | some regMs =>
        let registered := setHoursZero regMs
        let today := setHoursZero nowMs
        some (Int.fdiv (today - registered) msPerDay)

/-- A user record.  The base fields are those produced by the generator
(`dataGenerator.js`); `fullName` and `dsr` model the two computed
properties, which an arbitrary input object may or may not already carry
(`none` = property absent).  The value of a present `dsr` property is an
`Option Int`, `none` standing for `NaN`. -/
structure Record where
  id : String
  firstName : String
  lastName : String
  email : String
  city : String
  registeredDate : Option String
  fullName : Option String := none
  dsr : Option (Option Int) := none
  deriving DecidableEq, Repr

/-- Body of the arrow function inside `enrichDataWithComputedFields`:
spread the row, then write the two computed properties (overwriting any
present values). -/
def enrichOne (nowMs : Int) (row : Record) : Record :=
  { row with
    fullName := some (computeFullName row.firstName row.lastName),
    dsr := some (computeDaysSinceRegistration row.registeredDate nowMs) }

/-- Model of `enrichDataWithComputedFields`: `rawData.map(row => ({...row,
fullName: ..., dsr: ...}))`, with the wall clock passed explicitly. -/
def enrichDataWithComputedFields (nowMs : Int) (rawData : List Record) :
    List Record :=
  rawData.map (enrichOne nowMs)

/-- Object heap for the frame/effect claims: JavaScript arrays hold
references to objects; a heap is the list of allocated record objects and a
reference is an index into it.  Allocation appends. -/
structure Heap where
  cells : List Record
  deriving Repr

/-- Allocates a fresh object holding `r`; returns the extended heap and the
new reference. -/
def allocRecord (h : Heap) (r : Record) : Heap × Nat :=
  (⟨h.cells ++ [r]⟩, h.cells.length)

/-- Heap-level model of the `map` in `enrichDataWithComputedFields`: each
input reference is dereferenced, the spread `{...row, ...}` builds a fresh
object which is allocated, and the fresh references are collected in
order.  No existing cell is written. -/
def enrichHeapGo (nowMs : Int) : Heap → List Nat → Heap × List Nat
  | h, [] => (h, [])
  | h, ref :: rest =>
    let row := h.cells.getD ref
      { id := "", firstName := "", lastName := "", email := "", city := "",
        registeredDate := none }
    let alloc := allocRecord h (enrichOne nowMs row)
    let next := enrichHeapGo nowMs alloc.1 rest
    (next.1, alloc.2 :: next.2)

/-- Heap-level `enrichDataWithComputedFields`: the input array of
references is read, never written. -/
def enrichHeap (nowMs : Int) (h : Heap) (refs : List Nat) : Heap × List Nat :=
  enrichHeapGo nowMs h refs

/-- Initial `columnOrder` state of `DataTable.jsx`. -/
def initialColumnOrder : List String :=
  ["id", "firstName", "lastName", "fullName", "email", "city",
   "registeredDate", "dsr"]

/-- JavaScript `Array.prototype.indexOf`: index of the first occurrence,
`-1` when absent. -/
def jsIndexOf (l : List String) (x : String) : Int :=
  match l.findIdx? (· == x) with
  | some i => (i : Int)
  | none => -1

/-- Actual start index used by `Array.prototype.splice`: a negative start
counts from the end, and the result is clamped to `[0, length]`. -/
def jsSpliceStart (len : Int) (start : Int) : Nat :=
  (if start < 0 then max (len + start) 0 else min start len).toNat

/-- The `newArray.splice(from, 1)` step of `arrayMove`: remove (at most)
one element at the clamped start index, returning the shortened array and
the removed element (`none` when the index is past the end and nothing is
removed). -/
def spliceRemoveOne (l : List α) (start : Int) : List α × Option α :=
  let s := jsSpliceStart (l.length : Int) start
  match l.get? s with
  | none => (l, none)
  | some x => (l.take s ++ l.drop (s + 1), some x)

/-- The `newArray.splice(to, 0, item)` step of `arrayMove`: insert `item`
at the clamped start index. -/
def spliceInsertOne (l : List α) (start : Int) (x : α) : List α :=
  let s := jsSpliceStart (l.length : Int) start
  l.take s ++ x :: l.drop s

/-- Model of `arrayMove` from `@dnd-kit/sortable`:
`newArray.splice(to < 0 ? newArray.length + to : to, 0,
newArray.splice(from, 1)[0])` on a copy of the array.  The target index
expression is evaluated before the removal (JavaScript evaluates arguments
left to right), so it uses the original length; the removal's clamping
then happens against the shortened array inside `spliceInsertOne`.  When
the removal returns nothing — possible only for the empty array among the
index values `indexOf` can supply — JavaScript would insert `undefined`;
the model leaves the (empty) array unchanged instead, and every theorem
below uses it only on nonempty orders. -/
def arrayMove (l : List α) (fromIdx toIdx : Int) : List α :=
  let rawTo : Int := if toIdx < 0 then (l.length : Int) + toIdx else toIdx
  match spliceRemoveOne l fromIdx with
  | (l1, some x) => spliceInsertOne l1 rawTo x
  | (l1, none) => l1

/-- State transition of `handleDragEnd` in `DataTable.jsx` on the
`columnOrder` state: if both `active` and `over` are present and their ids
differ, apply `arrayMove` between their indices; otherwise leave the order
unchanged. -/
def handleDragEnd (active over : Option String) (prev : List String) :
    List String :=
  match active, over with
  | some a, some o =>
    if a ≠ o then arrayMove prev (jsIndexOf prev a) (jsIndexOf prev o)
    else prev
  | _, _ => prev

/-! Helper lemmas. -/

lemma msPerDay_pos : (0 : Int) < msPerDay := by decide

lemma msPerDay_ne_zero : (msPerDay : Int) ≠ 0 := by decide

lemma parseYMD_ne_empty {s : String} {ymd : Int × Int × Int}
    (h : parseYMD s = some ymd) : s ≠ "" := by
  intro he
  rw [he] at h
  exact Option.noConfusion h

/-- Characterization of `computeDaysSinceRegistration` on a string that
parses: the result is the day number of "now" minus the day number of the
registration date. -/
lemma computeDSR_parsed {s : String} {y m d : Int}
    (hs : parseYMD s = some (y, m, d)) (nowMs : Int) :
    computeDaysSinceRegistration (some s) nowMs =
      some (Int.fdiv nowMs msPerDay - daysFromCivil y m d) := by
  have hne : s ≠ "" := parseYMD_ne_empty hs
  have hfalsy : isFalsy (some s) = false := by
    simp [isFalsy, hne]
  have hparse : parseDateMs s = some (msPerDay * daysFromCivil y m d) := by
    simp [parseDateMs, hs]
  have hreg : setHoursZero (msPerDay * daysFromCivil y m d) =
      msPerDay * daysFromCivil y m d := by
    unfold setHoursZero
    rw [Int.mul_fdiv_cancel_left _ msPerDay_ne_zero]
  simp only [computeDaysSinceRegistration, hfalsy, Bool.false_eq_true,
    if_false, hparse, hreg, setHoursZero]
  congr 1
  have hfactor : msPerDay * Int.fdiv nowMs msPerDay - msPerDay * daysFromCivil y m d =
      msPerDay * (Int.fdiv nowMs msPerDay - daysFromCivil y m d) := by ring
  rw [Int.mul_fdiv_cancel_left _ msPerDay_ne_zero, hfactor,
    Int.mul_fdiv_cancel_left _ msPerDay_ne_zero]

example : daysFromCivil 1970 1 1 = 0 := by decide
example : daysFromCivil 2023 5 15 = 19492 := by decide
example : daysFromCivil 2023 12 11 = 19702 := by decide
example : parseYMD "2023-05-15" = some (2023, 5, 15) := by decide
example : parseYMD "2023-13-05" = none := by decide
example : parseYMD "" = none := by decide
example : computeDaysSinceRegistration (some "2023-05-15") (msPerDay * 19702) =
    some 210 := by decide

/-! Claim theorems. -/

/-- C1: for every registration date string exactly `N` calendar days before
the current date (`N ≥ 0`, here `N : Nat`), and for any time-of-day
component of "now" (only the day number `Int.fdiv nowMs msPerDay` of the
clock matters), `computeDaysSinceRegistration` returns `N`; with `N = 0`
this gives `0` when the registration date equals the current calendar
day. -/
theorem computeDSR_exact_days_before (s : String) (y m d : Int) (N : Nat)
    (nowMs : Int) (hs : parseYMD s = some (y, m, d))
    (hnow : Int.fdiv nowMs msPerDay = daysFromCivil y m d + (N : Int)) :
    computeDaysSinceRegistration (some s) nowMs = some (N : Int) := by
  rw [computeDSR_parsed hs, hnow]
  congr 1
  omega

/-- Witness for C1: the record `{firstName: "John", lastName: "Doe",
registeredDate: "2023-05-15"}` enriched with "now" at 2023-12-11 01:00
(epoch day 19702, a nonzero time-of-day) gets `fullName` `"John Doe"` and
`dsr` `210`, and the day-count theorem applies at that input. -/
theorem computeDSR_exact_days_before_witness :
    enrichDataWithComputedFields (msPerDay * 19702 + 3600000)
      [{ id := "u1", firstName := "John", lastName := "Doe",
         email := "john@example.com", city := "Springfield",
         registeredDate := some "2023-05-15" }] =
      [{ id := "u1", firstName := "John", lastName := "Doe",
         email := "john@example.com", city := "Springfield",
         registeredDate := some "2023-05-15", fullName := some "John Doe",
         dsr := some (some 210) }] ∧
    computeDaysSinceRegistration (some "2023-05-15")
      (msPerDay * 19702 + 3600000) = some ((210 : Nat) : Int) :=
  ⟨by decide,
   computeDSR_exact_days_before "2023-05-15" 2023 5 15 210
     (msPerDay * 19702 + 3600000) (by decide) (by decide)⟩

/-- C4: a falsy `registeredDate` (absent, or the empty string) makes
`computeDaysSinceRegistration` return `0` for every value of "now", and the
function is total (no error). -/
theorem computeDSR_falsy_zero (registeredDate : Option String) (nowMs : Int)
    (h : isFalsy registeredDate = true) :
    computeDaysSinceRegistration registeredDate nowMs = some 0 := by
  unfold computeDaysSinceRegistration
  rw [if_pos h]

/-- Witness for C4: both the absent value and the empty string give `0`, at
two unrelated clock values. -/
theorem computeDSR_falsy_zero_witness :
    computeDaysSinceRegistration (some "") 123456789 = some 0 ∧
    computeDaysSinceRegistration none 987654321 = some 0 :=
  ⟨computeDSR_falsy_zero (some "") 123456789 (by decide),
   computeDSR_falsy_zero none 987654321 (by decide)⟩

/-- C5: for a fixed registration date string that parses, the day count is
non-decreasing as "now" advances, increases by exactly `1` when "now"
advances by one calendar day, and is nonnegative whenever the registration
day is not in the future of "now"'s day. -/
theorem computeDSR_monotone (s : String) (y m d : Int)
    (hs : parseYMD s = some (y, m, d)) :
    (∀ n1 n2 v1 v2 : Int, n1 ≤ n2 →
      computeDaysSinceRegistration (some s) n1 = some v1 →
      computeDaysSinceRegistration (some s) n2 = some v2 → v1 ≤ v2) ∧
    (∀ n : Int, computeDaysSinceRegistration (some s) (n + msPerDay) =
      (computeDaysSinceRegistration (some s) n).map (fun v => v + 1)) ∧
    (∀ n v : Int, daysFromCivil y m d ≤ Int.fdiv n msPerDay →
      computeDaysSinceRegistration (some s) n = some v → 0 ≤ v) := by
  refine ⟨?_, ?_, ?_⟩
  · intro n1 n2 v1 v2 hle h1 h2
    rw [computeDSR_parsed hs] at h1 h2
    have hd : Int.fdiv n1 msPerDay ≤ Int.fdiv n2 msPerDay := by
      rw [Int.fdiv_eq_ediv _ (le_of_lt msPerDay_pos),
        Int.fdiv_eq_ediv _ (le_of_lt msPerDay_pos)]
      exact Int.ediv_le_ediv msPerDay_pos hle
    have hv1 : v1 = Int.fdiv n1 msPerDay - daysFromCivil y m d :=
      (Option.some.injEq _ _ ▸ h1).symm
    have hv2 : v2 = Int.fdiv n2 msPerDay - daysFromCivil y m d :=
      (Option.some.injEq _ _ ▸ h2).symm
    omega
  · intro n
    rw [computeDSR_parsed hs, computeDSR_parsed hs]
    have hstep : Int.fdiv (n + msPerDay) msPerDay = Int.fdiv n msPerDay + 1 := by
      rw [Int.fdiv_eq_ediv _ (le_of_lt msPerDay_pos),
        Int.fdiv_eq_ediv _ (le_of_lt msPerDay_pos)]
      have : n + msPerDay = n + 1 * msPerDay := by ring
      rw [this, Int.add_mul_ediv_right _ _ msPerDay_ne_zero]
    rw [hstep]
    rw [Option.map_some']
    congr 1
    omega
  · intro n v hle hv
    rw [computeDSR_parsed hs] at hv
    have : v = Int.fdiv n msPerDay - daysFromCivil y m d :=
      (Option.some.injEq _ _ ▸ hv).symm
    omega

/-- Witness for C5: for the registration date 2023-05-15 (day 19492) the
three parts hold concretely: the count is monotone between 2023-12-11 and
2023-12-12, advancing the clock one day maps the result through `+1`, and
the value at 2023-12-11 is nonnegative. -/
theorem computeDSR_monotone_witness :
    (210 : Int) ≤ 211 ∧
    computeDaysSinceRegistration (some "2023-05-15")
        (msPerDay * 19702 + msPerDay) =
      (computeDaysSinceRegistration (some "2023-05-15")
        (msPerDay * 19702)).map (fun v => v + 1) ∧
    (0 : Int) ≤ 210 :=
  ⟨(computeDSR_monotone "2023-05-15" 2023 5 15 (by decide)).1
      (msPerDay * 19702) (msPerDay * 19703) 210 211 (by decide)
      (by decide) (by decide),
   (computeDSR_monotone "2023-05-15" 2023 5 15 (by decide)).2.1
      (msPerDay * 19702),
   (computeDSR_monotone "2023-05-15" 2023 5 15 (by decide)).2.2
      (msPerDay * 19702) 210 (by decide) (by decide)⟩

/-- C7: a registration date string that parses to a calendar day strictly
after the day of "now" yields a strictly negative result (the explicit
value `nowDay - registeredDay`), not an error. -/
theorem computeDSR_future_negative (s : String) (y m d : Int) (nowMs : Int)
    (hs : parseYMD s = some (y, m, d))
    (hfut : Int.fdiv nowMs msPerDay < daysFromCivil y m d) :
    computeDaysSinceRegistration (some s) nowMs =
      some (Int.fdiv nowMs msPerDay - daysFromCivil y m d) ∧
    Int.fdiv nowMs msPerDay - daysFromCivil y m d < 0 :=
  ⟨computeDSR_parsed hs nowMs, by omega⟩

/-- Witness for C7: registration date 2024-01-01 (day 19723) seen from
2023-12-11 (day 19702) gives the negative count `-21`. -/
theorem computeDSR_future_negative_witness :
    computeDaysSinceRegistration (some "2024-01-01") (msPerDay * 19702) =
      some (Int.fdiv (msPerDay * 19702) msPerDay - daysFromCivil 2024 1 1) ∧
    Int.fdiv (msPerDay * 19702) msPerDay - daysFromCivil 2024 1 1 < 0 :=
  computeDSR_future_negative "2024-01-01" 2024 1 1 (msPerDay * 19702)
    (by decide) (by decide)

/-- C3: `computeFullName` is exactly the first name, one space, the last
name, for all strings including empty ones; it never trims or normalizes,
so the output length is always `firstName.length + 1 + lastName.length`,
and on two empty inputs the result is the single space. -/
theorem computeFullName_exact (firstName lastName : String) :
    computeFullName firstName lastName = firstName ++ " " ++ lastName ∧
    (computeFullName firstName lastName).length =
      firstName.length + 1 + lastName.length ∧
    computeFullName "" "" = " " := by
  refine ⟨rfl, ?_, rfl⟩
  have hsp : (" " : String).length = 1 := rfl
  simp [computeFullName, String.length_append, hsp]

/-- C2: `enrichDataWithComputedFields` maps an input of length `K` to an
output of length `K` in the same order (the `i`-th output is the
enrichment of the `i`-th input), each output record keeps every base field
of its input record unchanged and carries the two computed fields, and the
empty input gives the empty output. -/
theorem enrich_preserves_shape (nowMs : Int) (rows : List Record) :
    (enrichDataWithComputedFields nowMs rows).length = rows.length ∧
    (∀ i : Nat, (enrichDataWithComputedFields nowMs rows)[i]? =
      (rows[i]?).map (enrichOne nowMs)) ∧
    (∀ row : Record,
      (enrichOne nowMs row).id = row.id ∧
      (enrichOne nowMs row).firstName = row.firstName ∧
      (enrichOne nowMs row).lastName = row.lastName ∧
      (enrichOne nowMs row).email = row.email ∧
      (enrichOne nowMs row).city = row.city ∧
      (enrichOne nowMs row).registeredDate = row.registeredDate ∧
      (enrichOne nowMs row).fullName =
        some (computeFullName row.firstName row.lastName) ∧
      (enrichOne nowMs row).dsr =
        some (computeDaysSinceRegistration row.registeredDate nowMs)) ∧
    enrichDataWithComputedFields nowMs [] = [] := by
  refine ⟨?_, ?_, ?_, rfl⟩
  · simp [enrichDataWithComputedFields]
  · intro i
    simp [enrichDataWithComputedFields, List.getElem?_map]
  · intro row
    exact ⟨rfl, rfl, rfl, rfl, rfl, rfl, rfl, rfl⟩

/-- C8: enrichment is deterministic in the record fields and the current
date at day granularity: two clocks with the same day number produce
identical enriched outputs for every input collection. -/
theorem enrich_day_deterministic (rows : List Record) (n1 n2 : Int)
    (h : Int.fdiv n1 msPerDay = Int.fdiv n2 msPerDay) :
    enrichDataWithComputedFields n1 rows = enrichDataWithComputedFields n2 rows := by
  have hdsr : ∀ rd : Option String,
      computeDaysSinceRegistration rd n1 = computeDaysSinceRegistration rd n2 := by
    intro rd
    simp only [computeDaysSinceRegistration, setHoursZero, h]
  have hone : ∀ row : Record, enrichOne n1 row = enrichOne n2 row := by
    intro row
    simp only [enrichOne, hdsr]
  unfold enrichDataWithComputedFields
  exact List.map_congr_left (fun a _ => hone a)

/-- Witness for C8: two clocks one hour apart inside the same day (day 0)
enrich a concrete record identically. -/
theorem enrich_day_deterministic_witness :
    enrichDataWithComputedFields 0
      [{ id := "u1", firstName := "John", lastName := "Doe",
         email := "john@example.com", city := "Springfield",
         registeredDate := some "2023-05-15" }] =
    enrichDataWithComputedFields 3600000
      [{ id := "u1", firstName := "John", lastName := "Doe",
         email := "john@example.com", city := "Springfield",
         registeredDate := some "2023-05-15" }] :=
  enrich_day_deterministic _ 0 3600000 (by decide)

/-- C9: the spread-then-write order makes `enrichDataWithComputedFields`
overwrite any `fullName`/`dsr` fields already present on the input with
freshly computed values (so enriching a record with those fields set
arbitrarily equals enriching the record without them), and for a fixed
clock the function is idempotent. -/
theorem enrich_overwrites_and_idempotent (nowMs : Int) (rows : List Record)
    (r : Record) (f : Option String) (d : Option (Option Int)) :
    enrichOne nowMs { r with fullName := f, dsr := d } = enrichOne nowMs r ∧
    (enrichOne nowMs r).fullName =
      some (computeFullName r.firstName r.lastName) ∧
    (enrichOne nowMs r).dsr =
      some (computeDaysSinceRegistration r.registeredDate nowMs) ∧
    enrichDataWithComputedFields nowMs (enrichDataWithComputedFields nowMs rows) =
      enrichDataWithComputedFields nowMs rows := by
  refine ⟨rfl, rfl, rfl, ?_⟩
  unfold enrichDataWithComputedFields
  rw [List.map_map]
  exact List.map_congr_left (fun a _ => rfl)

/-- Fixed sample record used by concrete witnesses. -/
def sampleRecord : Record :=
  { id := "u1", firstName := "John", lastName := "Doe",
    email := "john@example.com", city := "Springfield",
    registeredDate := some "2023-05-15" }

/-- On the heap model, enrichment only appends fresh cells: the resulting
heap extends the input heap, one fresh reference is produced per input
reference, and every fresh reference lies beyond the input heap. -/
lemma enrichHeapGo_frame (nowMs : Int) :
    ∀ (refs : List Nat) (h : Heap),
      ∃ ext : List Record,
        (enrichHeapGo nowMs h refs).1.cells = h.cells ++ ext ∧
        (enrichHeapGo nowMs h refs).2.length = refs.length ∧
        ∀ r ∈ (enrichHeapGo nowMs h refs).2, h.cells.length ≤ r := by
  intro refs
  induction refs with
  | nil =>
    intro h
    exact ⟨[], by simp [enrichHeapGo], by simp [enrichHeapGo],
      by simp [enrichHeapGo]⟩
  | cons ref rest ih =>
    intro h
    obtain ⟨ext, hcells, hlen, hge⟩ :=
      ih ⟨h.cells ++ [enrichOne nowMs (h.cells.getD ref
        { id := "", firstName := "", lastName := "", email := "", city := "",
          registeredDate := none })]⟩
    refine ⟨enrichOne nowMs (h.cells.getD ref
        { id := "", firstName := "", lastName := "", email := "", city := "",
          registeredDate := none }) :: ext, ?_, ?_, ?_⟩
    · simp only [enrichHeapGo, allocRecord]
      rw [hcells]
      simp
    · simp only [enrichHeapGo, allocRecord, List.length_cons]
      rw [hlen]
    · intro r hr
      simp only [enrichHeapGo, allocRecord, List.mem_cons] at hr
      rcases hr with hr | hr
      · omega
      · have := hge r hr
        simp only [List.length_append, List.length_cons,
          List.length_nil] at this
        omega

/-- C6: on the heap model, `enrichDataWithComputedFields` leaves its input
untouched: every pre-existing object cell is unchanged (the input heap is a
prefix of the output heap, read off cell by cell), the input reference
array is a pure value the call cannot alter, one output reference is
produced per input reference, and all output references are to freshly
allocated objects; the only state the function touches is the heap it is
given. -/
theorem enrich_no_mutation (nowMs : Int) (h : Heap) (refs : List Nat) :
    (enrichHeap nowMs h refs).1.cells.take h.cells.length = h.cells ∧
    (∀ i : Nat, i < h.cells.length →
      (enrichHeap nowMs h refs).1.cells[i]? = h.cells[i]?) ∧
    (enrichHeap nowMs h refs).2.length = refs.length ∧
    (∀ r ∈ (enrichHeap nowMs h refs).2, h.cells.length ≤ r) := by
  obtain ⟨ext, hcells, hlen, hge⟩ := enrichHeapGo_frame nowMs refs h
  have hcells' : (enrichHeap nowMs h refs).1.cells = h.cells ++ ext := hcells
  refine ⟨?_, ?_, hlen, hge⟩
  · rw [hcells', List.take_left]
  · intro i hi
    rw [hcells', List.getElem?_append, if_pos hi]

/-- Witness for C6: enriching a one-record heap through reference `0`
leaves cell `0` holding the original record, and produces exactly one
fresh reference. -/
theorem enrich_no_mutation_witness :
    (enrichHeap 0 ⟨[sampleRecord]⟩ [0]).1.cells.take 1 = [sampleRecord] ∧
    (enrichHeap 0 ⟨[sampleRecord]⟩ [0]).1.cells[0]? = some sampleRecord ∧
    (enrichHeap 0 ⟨[sampleRecord]⟩ [0]).2.length = 1 :=
  ⟨(enrich_no_mutation 0 ⟨[sampleRecord]⟩ [0]).1,
   (enrich_no_mutation 0 ⟨[sampleRecord]⟩ [0]).2.1 0 (by decide),
   (enrich_no_mutation 0 ⟨[sampleRecord]⟩ [0]).2.2.1⟩

/-- Inserting one element with JavaScript splice semantics permutes: the
result is a permutation of the element consed onto the list. -/
lemma spliceInsertOne_perm (l : List α) (start : Int) (x : α) :
    List.Perm (spliceInsertOne l start x) (x :: l) := by
  unfold spliceInsertOne
  have h := @List.perm_middle _ x
    (l.take (jsSpliceStart (l.length : Int) start))
    (l.drop (jsSpliceStart (l.length : Int) start))
  rw [List.take_append_drop] at h
  exact h

/-- When the splice removal removes nothing, the array is unchanged. -/
lemma spliceRemoveOne_none {l l1 : List α} {start : Int}
    (h : spliceRemoveOne l start = (l1, none)) : l1 = l := by
  simp only [spliceRemoveOne] at h
  split at h
  · injection h with h1 h2
    exact h1.symm
  · injection h with h1 h2
    exact Option.noConfusion h2

/-- When the splice removal removes an element, the original array is a
permutation of that element consed onto the shortened array. -/
lemma spliceRemoveOne_some {l l1 : List α} {start : Int} {x : α}
    (h : spliceRemoveOne l start = (l1, some x)) : List.Perm l (x :: l1) := by
  simp only [spliceRemoveOne] at h
  split at h
  · injection h with h1 h2
    exact Option.noConfusion h2
  · rename_i y hget
    injection h with h1 h2
    injection h2 with h2
    subst h2
    subst h1
    rw [List.get?_eq_getElem?] at hget
    obtain ⟨hlt, hy⟩ := List.getElem?_eq_some_iff.mp hget
    subst hy
    conv_lhs => rw [← List.take_append_drop
      (jsSpliceStart (l.length : Int) start) l,
      List.drop_eq_getElem_cons hlt]
    exact List.perm_middle

/-- The dnd-kit `arrayMove` never adds, drops, or duplicates entries: its
result is a permutation of its input, for every pair of indices. -/
lemma arrayMove_perm (l : List α) (fromIdx toIdx : Int) :
    List.Perm (arrayMove l fromIdx toIdx) l := by
  rcases hrem : spliceRemoveOne l fromIdx with ⟨l1, x?⟩
  cases x? with
  | none =>
    simp only [arrayMove, hrem]
    rw [spliceRemoveOne_none hrem]
  | some x =>
    simp only [arrayMove, hrem]
    exact (spliceInsertOne_perm l1 _ x).trans (spliceRemoveOne_some hrem).symm

/-- C10: starting from any column order that is a permutation of the eight
initial column identifiers, a `handleDragEnd` step keeps the order a
permutation of them — the step either leaves the order unchanged (when
`active` or `over` is missing, or their ids coincide) or applies
`arrayMove`, which permutes the list without adding, dropping, or
duplicating entries. -/
theorem columnOrder_perm_invariant (active over : Option String)
    (prev : List String)
    (hperm : List.Perm prev initialColumnOrder) :
    List.Perm (handleDragEnd active over prev) initialColumnOrder ∧
    ((active = none ∨ over = none ∨ active = over) →
      handleDragEnd active over prev = prev) := by
  constructor
  · cases active with
    | none => exact hperm
    | some a =>
      cases over with
      | none => exact hperm
      | some o =>
        by_cases hao : a = o
        · simp only [handleDragEnd, hao, ne_eq, not_true_eq_false, if_false]
          exact hperm
        · simp only [handleDragEnd, ne_eq, hao, not_false_eq_true, if_true]
          exact (arrayMove_perm prev _ _).trans hperm
  · rintro (h | h | h)
    · subst h
      cases over <;> rfl
    · subst h
      cases active <;> rfl
    · subst h
      cases active with
      | none => rfl
      | some a => simp [handleDragEnd]

/-- Witness for C10: dragging the `email` column onto the `id` column from
the initial order yields a permutation of the initial order (concretely,
`email` moves to the front), and a drop with coinciding ids changes
nothing. -/
theorem columnOrder_perm_invariant_witness :
    List.Perm (handleDragEnd (some "email") (some "id") initialColumnOrder)
      initialColumnOrder ∧
    handleDragEnd (some "id") (some "id") initialColumnOrder =
      initialColumnOrder :=
  ⟨(columnOrder_perm_invariant (some "email") (some "id") initialColumnOrder
      (List.Perm.refl _)).1,
   (columnOrder_perm_invariant (some "id") (some "id") initialColumnOrder
      (List.Perm.refl _)).2 (Or.inr (Or.inr rfl))⟩

example : handleDragEnd (some "email") (some "id") initialColumnOrder =
    ["email", "id", "firstName", "lastName", "fullName", "city",
     "registeredDate", "dsr"] := by decide

example : arrayMove ["a", "b", "c", "d"] 0 2 = ["b", "c", "a", "d"] := by decide
